import Mathlib

/-
Verification of the project-scanner, storage, and git-clone logic of the
Raycast "Open Cursor Project" extension, as a shallow embedding in Lean.

Paths are modelled as lists of segments; the filesystem is a finite tree of
named nodes.  JS string operations (`includes`, `toLowerCase`, `trim`,
`parseInt`, regex matches of `parseGitUrl`) are modelled executably.
-/

namespace OCP

/-- Substring test on character lists, modelling JS `String.prototype.includes`. -/
def containsSeq (pat : List Char) : List Char → Bool
  | [] => pat.isEmpty
  | c :: t => pat.isPrefixOf (c :: t) || containsSeq pat t

/-- JS `s.includes(pat)` on strings. -/
def strIncludes (s pat : String) : Bool := containsSeq pat.toList s.toList

/-- JS `s.toLowerCase()` (ASCII case folding). -/
def toLowerStr (s : String) : String := String.mk (s.toList.map Char.toLower)

/-- JS `s.trim()`: whitespace removed from both ends. -/
def trimStr (s : String) : String :=
  String.mk (((s.toList.dropWhile Char.isWhitespace).reverse.dropWhile
    Char.isWhitespace).reverse)

/-- JS `s.startsWith(pre)`. -/
def startsWithStr (s pre : String) : Bool := pre.toList.isPrefixOf s.toList

/-- JS `s.endsWith(suf)`. -/
def endsWithStr (s suf : String) : Bool := suf.toList.isSuffixOf s.toList

/-- JS `s.slice(n)` / Lean `String.drop`: remove the first `n` characters. -/
def dropStr (s : String) (n : Nat) : String := String.mk (s.toList.drop n)

/-- JS `s.split(sep)` for a one-character separator (splitting "" gives [""]). -/
def splitChar (sep : Char) : List Char → List (List Char)
  | [] => [[]]
  | c :: t =>
    match splitChar sep t with
    | [] => [[c]]
    | h :: rest => if c = sep then [] :: h :: rest else (c :: h) :: rest

/-- From `shouldExcludeFolder` in `src/utils/project-scanner.ts`:
`folderName.toLowerCase().includes(excluded.toLowerCase().trim())` over the pattern list. -/
def shouldExcludeFolder (folderName : String) (excludedFolders : List String) : Bool :=
  excludedFolders.any fun excluded =>
    strIncludes (toLowerStr folderName) (trimStr (toLowerStr excluded))

/-- Marker names from `PROJECT_INDICATORS` in `src/utils/project-scanner.ts`
(the source removed `.vscode` and `.idea` from this list as IDE config folders). -/
def PROJECT_INDICATORS : List String :=
  [".git", "package.json", "Cargo.toml", "pom.xml", "build.gradle",
   "requirements.txt", "setup.py", "pyproject.toml", "go.mod", "composer.json",
   "Gemfile", "mix.exs", "project.clj", "deps.edn", "tsconfig.json",
   "angular.json", "vue.config.js", "vite.config.js", "webpack.config.js"]

/-- A filesystem node: directory flag, modification time, size, named children.
Files carry no children. -/
inductive FSTree where
  | node (isDir : Bool) (mtime : Nat) (size : Nat) (children : List (String × FSTree))

def FSTree.isDir : FSTree → Bool
  | .node d _ _ _ => d

def FSTree.mtime : FSTree → Nat
  | .node _ m _ _ => m

def FSTree.size : FSTree → Nat
  | .node _ _ s _ => s

def FSTree.children : FSTree → List (String × FSTree)
  | .node _ _ _ c => c

/-- Modelling `access(join(dirPath, name))`: succeeds iff an entry named `name`
exists directly inside `t`. -/
def FSTree.hasEntry (t : FSTree) (name : String) : Bool :=
  t.children.any fun e => e.1 == name

/-- From `isProjectDirectory` in `src/utils/project-scanner.ts`: true iff some
marker from `PROJECT_INDICATORS` exists directly inside the directory. -/
def isProjectDir (t : FSTree) : Bool :=
  PROJECT_INDICATORS.any fun indicator => t.hasEntry indicator

/-- From `hasSubProjects` in `src/utils/project-scanner.ts`: some non-excluded
immediate child directory is itself a project.  `readdir` failure (non-directory)
yields `false`. -/
def hasSubProjects (t : FSTree) (excludedFolders : List String) : Bool :=
  if t.isDir then
    t.children.any fun e =>
      !shouldExcludeFolder e.1 excludedFolders && e.2.isDir && isProjectDir e.2
  else false

/-- Update step of `scanForLatestFile`:
`if (stats.mtime && (!latestDate || stats.mtime > latestDate)) latestDate = stats.mtime`. -/
def updateLatest (latest : Option Nat) (m : Nat) : Option Nat :=
  match latest with
  | none => some m
  | some a => if m > a then some m else some a

mutual
/-- From the inner `scanForLatestFile` of `getLatestFileModification` in
`src/utils/project-scanner.ts`.  A non-directory node models a path whose
`readdir` throws (the error is swallowed). -/
def scanForLatestFile (excludedFolders : List String) (maxDepth : Int)
    (t : FSTree) (depth : Int) (latest : Option Nat) : Option Nat :=
  if depth > maxDepth then latest
  else
    match t with
    | .node isDir _ _ children =>
      if isDir then latestLoop excludedFolders maxDepth children depth latest
      else latest

/-- The per-entry loop of `scanForLatestFile`: excluded names are skipped,
each surviving entry updates the running latest mtime, directories are
recursed into while `depth < maxDepth`. -/
def latestLoop (excludedFolders : List String) (maxDepth : Int)
    (entries : List (String × FSTree)) (depth : Int) (latest : Option Nat) : Option Nat :=
  match entries with
  | [] => latest
  | (name, c) :: rest =>
    if shouldExcludeFolder name excludedFolders then
      latestLoop excludedFolders maxDepth rest depth latest
    else
      let latest1 := updateLatest latest c.mtime
      let latest2 :=
        if c.isDir ∧ depth < maxDepth then
          scanForLatestFile excludedFolders maxDepth c (depth + 1) latest1
        else latest1
      latestLoop excludedFolders maxDepth rest depth latest2
end

/-- From `getLatestFileModification(dirPath, excludedFolders, maxDepth)`:
runs the inner walk from depth 0 with no latest date yet. -/
def getLatestFileModification (t : FSTree) (excludedFolders : List String)
    (maxDepth : Int) : Option Nat :=
  scanForLatestFile excludedFolders maxDepth t 0 none

/-- The `Project` record of `src/types.ts` (plus `lastModified`, which the
scanner sets).  The path/id type is a parameter: segment lists for the scanner,
plain strings for the storage layer. -/
structure Project (π : Type) where
  id : π
  name : String
  path : π
  type : String
  size : Option Nat := none
  lastModified : Option Nat := none
  gitRemote : Option String := none
  clonedAt : Option Nat := none
  lastAccessed : Option Nat := none
  isFavorite : Bool := false
deriving DecidableEq

/-- A path as a list of segments; `join(dirPath, entry)` appends a segment. -/
abbrev Path := List String

/-- Modelling `basename(dirPath)`: the final path segment. -/
def basenameOf (path : Path) : String := path.getLastD ""

/-- The `ProjectEntry` the walker pushes for a project directory:
id = path, name = basename, kind local, size from stat, `lastModified` is the
recency-scan result (depth 2) falling back to the directory's own mtime. -/
def mkProjectEntry (t : FSTree) (path : Path) (excludedFolders : List String) :
    Project Path :=
  { id := path
    name := basenameOf path
    path := path
    type := "local"
    size := some t.size
    lastModified := some ((getLatestFileModification t excludedFolders 2).getD t.mtime) }

mutual
/-- From `scanDirectory` in `src/utils/project-scanner.ts`: stop past the depth
budget; `readdir` failure (non-directory) emits nothing; excluded basenames are
skipped; a directory with sub-projects is a container and is only recursed
into; otherwise a project directory emits one entry and is not recursed into;
otherwise children are scanned while `currentDepth < maxDepth`. -/
def scanDirectory (t : FSTree) (path : Path) (maxDepth currentDepth : Int)
    (excludedFolders : List String) : List (Project Path) :=
  if currentDepth > maxDepth then []
  else
    match t with
    | .node isDir _ _ children =>
      if !isDir then []
      else if shouldExcludeFolder (basenameOf path) excludedFolders then []
      else if ¬ hasSubProjects t excludedFolders ∧ isProjectDir t then
        [mkProjectEntry t path excludedFolders]
      else if currentDepth < maxDepth then
        scanChildren children path maxDepth currentDepth excludedFolders
      else []

/-- The recursion loop of `scanDirectory`: each non-excluded child directory is
scanned at depth `currentDepth + 1`, results concatenated in order. -/
def scanChildren (entries : List (String × FSTree)) (path : Path)
    (maxDepth currentDepth : Int) (excludedFolders : List String) :
    List (Project Path) :=
  match entries with
  | [] => []
  | (name, c) :: rest =>
    (if c.isDir ∧ ¬ shouldExcludeFolder name excludedFolders then
      scanDirectory c (path ++ [name]) maxDepth (currentDepth + 1) excludedFolders
    else []) ++ scanChildren rest path maxDepth currentDepth excludedFolders
end

/-- Resolve a root path inside the world tree (a missing root behaves like a
path whose `readdir` throws: the walk of that root emits nothing). -/
def resolvePath (t : FSTree) : Path → Option FSTree
  | [] => some t
  | seg :: rest =>
    match t.children.find? (fun e => e.1 == seg) with
    | some e => resolvePath e.2 rest
    | none => none

/-- One iteration of the root loop of `scanProjects`:
`scanDirectory(expandedPath, scanDepth, 0, excludedFolders, projects)`, where a
root that does not resolve to anything behaves like a path whose `readdir`
throws and contributes nothing. -/
def rootScan (world : FSTree) (maxDepth : Int) (excludedFolders : List String)
    (rootPath : Path) : List (Project Path) :=
  match resolvePath world rootPath with
  | some t => scanDirectory t rootPath maxDepth 0 excludedFolders
  | none => []

/-- The per-root loop of `scanProjects`: each configured root is walked from
depth 0 into one shared accumulator. -/
def scanRoots (world : FSTree) (rootPaths : List Path) (maxDepth : Int)
    (excludedFolders : List String) : List (Project Path) :=
  rootPaths.foldl
    (fun acc rootPath => acc ++ rootScan world maxDepth excludedFolders rootPath)
    []

/-- JS hexadecimal digit. -/
def isHexDigitJS (c : Char) : Bool :=
  c.isDigit || ('a' ≤ c ∧ c ≤ 'f') || ('A' ≤ c ∧ c ≤ 'F')

/-- Value of a JS hexadecimal digit. -/
def hexVal (c : Char) : Nat :=
  if c.isDigit then c.toNat - 48
  else if 'a' ≤ c then c.toNat - 87
  else c.toNat - 55

/-- JS `parseInt(s)` with no radix argument: skip whitespace, optional sign,
`0x`/`0X` switches to base 16, then the longest digit prefix; no digits means
`NaN`, modelled as `none`. -/
def parseIntJS (s : String) : Option Int :=
  let cs := s.toList.dropWhile Char.isWhitespace
  let signAndRest : Int × List Char :=
    match cs with
    | '-' :: r => (-1, r)
    | '+' :: r => (1, r)
    | _ => (1, cs)
  let hexAndRest : Bool × List Char :=
    match signAndRest.2 with
    | '0' :: 'x' :: r => (true, r)
    | '0' :: 'X' :: r => (true, r)
    | _ => (false, signAndRest.2)
  let digits :=
    hexAndRest.2.takeWhile (fun c => if hexAndRest.1 then isHexDigitJS c else c.isDigit)
  if digits.isEmpty then none
  else
    let base : Nat := if hexAndRest.1 then 16 else 10
    some (signAndRest.1 * (digits.foldl (fun n c => n * base + hexVal c) 0 : Nat))

/-- JS `v || d` for the scan depth: `parseInt` giving `NaN` or `0` (both falsy)
falls back to the default. -/
def jsOrDefaultInt (v : Option Int) (d : Int) : Int :=
  match v with
  | none => d
  | some n => if n = 0 then d else n

/-- From `scanProjects`: `const scanDepth = parseInt(preferences.scanDepth) || 3`. -/
def scanDepthOf (s : String) : Int := jsOrDefaultInt (parseIntJS s) 3

/-- The `Preferences` record of `src/types.ts`. -/
structure Preferences where
  scanDirectories : String
  scanDepth : String
  excludedFolders : String
  cloneDirectory : String
  githubToken : Option String := none
  gitlabToken : Option String := none
  bitbucketToken : Option String := none
  openInNewWindow : Bool := false

/-- From `scanProjects`: `split(",").map(trim).filter(length > 0)` applied to a
comma-separated preference string. -/
def parsePrefList (s : String) : List String :=
  (((splitChar ',' s.toList).map (fun cs => trimStr (String.mk cs))).filter
    (fun f => f.length > 0))

/-- The cache-miss path of the scan entry point `scanProjects`, for a given
world tree and resolved root paths: walks every root with the configured depth
and exclusion list.  (Home-directory expansion of the root strings is I/O glue
outside the model; roots are supplied as segment paths.) -/
def scanProjectsFresh (world : FSTree) (rootPaths : List Path)
    (prefs : Preferences) : List (Project Path) :=
  scanRoots world rootPaths (scanDepthOf prefs.scanDepth)
    (parsePrefList prefs.excludedFolders)

/-- Outcome of one `fs.access` existence check, as seen by `isProjectDirectory`. -/
inductive AccessResult where
  | ok
  | err (msg : String)
deriving DecidableEq

/-- One branch of `isProjectDirectory`:
`access(join(dirPath, indicator)).then(() => true).catch(() => false)` — an
error on the individual check becomes `false` and is never rethrown. -/
def accessCheck (access : String → AccessResult) (indicator : String) : Bool :=
  match access indicator with
  | .ok => true
  | .err _ => false

/-- From `isProjectDirectory` in `src/utils/project-scanner.ts`, over the raw
per-marker access outcomes: `Promise.all(checks).then(results => results.some(b => b))`. -/
def isProjectDirectoryAcc (access : String → AccessResult) : Bool :=
  (PROJECT_INDICATORS.map (accessCheck access)).any (fun b => b)

/-- The two `LocalStorage` slots of the project cache in `src/utils/storage.ts`
(`project-cache` and `cache-timestamp`). -/
structure CacheState where
  cache : Option (List (Project Path))
  timestamp : Option Nat
deriving DecidableEq

/-- Constant `CACHE_DURATION_MS = 24 * 60 * 60 * 1000`. -/
def CACHE_DURATION_MS : Nat := 24 * 60 * 60 * 1000

/-- From `getCachedProjects`: no timestamp, or an age above 24h, yields null;
otherwise the cache slot is returned verbatim (null when absent). -/
def getCachedProjects (st : CacheState) (now : Nat) : Option (List (Project Path)) :=
  match st.timestamp with
  | none => none
  | some ts =>
    if now - ts > CACHE_DURATION_MS then none
    else st.cache

/-- From `setCachedProjects`: overwrite both slots, stamping the current time. -/
def setCachedProjects (projects : List (Project Path)) (now : Nat) : CacheState :=
  { cache := some projects, timestamp := some now }

/-- Constant `MAX_HISTORY_ITEMS = 50`. -/
def MAX_HISTORY_ITEMS : Nat := 50

/-- From `addToHistory` in `src/utils/storage.ts`: remove the entry found by
`findIndex` on the id (if any), prepend a copy stamped with the current access
time, keep the first `MAX_HISTORY_ITEMS` entries. -/
def addToHistory {π : Type} [DecidableEq π] (project : Project π) (now : Nat)
    (history : List (Project π)) : List (Project π) :=
  let removed := history.eraseP (fun p => p.id == project.id)
  ({ project with lastAccessed := some now } :: removed).take MAX_HISTORY_ITEMS

/-- The `GitRepository` record of `src/types.ts` (provider is one of the
literal strings "github", "gitlab", "bitbucket", "custom"). -/
structure GitRepository where
  url : String
  name : String
  provider : String
deriving DecidableEq

/-- Tail match for the provider regexes of `parseGitUrl`: after the host, the
rest of the string must match `[/:]([^/]+)\/([^/]+?)(?:\.git)?\/?$`. -/
def hostTailMatch (cs : List Char) : Bool :=
  match cs with
  | [] => false
  | sep :: rest =>
    (sep == '/' || sep == ':') &&
    (let owner := rest.takeWhile (fun c => c ≠ '/')
     !owner.isEmpty &&
       (match rest.drop owner.length with
        | '/' :: tail =>
          let core := if tail.getLast? = some '/' then tail.dropLast else tail
          !core.isEmpty && !core.contains '/'
        | _ => false))

/-- Unanchored search: does `host` occur in `cs` followed by a `hostTailMatch`
tail reaching the end of the string? -/
def hostScan (host : List Char) : List Char → Bool
  | [] => false
  | c :: t =>
    (host.isPrefixOf (c :: t) && hostTailMatch ((c :: t).drop host.length)) ||
      hostScan host t

/-- The lazy group `([^/]+?)(?:\.git)?` anchored on a slash-free piece `core`:
the shortest capture, i.e. one `.git` suffix is absorbed by the optional group
whenever a non-empty capture remains. -/
def lazyRepoName (core : List Char) : List Char :=
  if ".git".toList.isSuffixOf core ∧ core.length > 4 then
    core.take (core.length - 4)
  else core

/-- JS `name.replace(/\.git$/, "")`. -/
def stripGitSuffix (name : List Char) : List Char :=
  if ".git".toList.isSuffixOf name then name.take (name.length - 4) else name

/-- Capture group 2 of the provider regexes at a matching position: skip the
separator, the greedy owner segment and its slash, then take the lazy repo
capture from the remaining piece (one optional trailing slash allowed). -/
def extractRepoCapture (cs : List Char) : Option (List Char) :=
  match cs with
  | [] => none
  | _sep :: rest =>
    let owner := rest.takeWhile (fun c => c ≠ '/')
    match rest.drop owner.length with
    | _slash :: tail =>
      let core := if tail.getLast? = some '/' then tail.dropLast else tail
      some (lazyRepoName core)
    | [] => none

/-- Leftmost-match extraction of the repo-name capture for a provider host. -/
def hostExtract (host : List Char) : List Char → Option (List Char)
  | [] => none
  | c :: t =>
    if host.isPrefixOf (c :: t) && hostTailMatch ((c :: t).drop host.length) then
      extractRepoCapture ((c :: t).drop host.length)
    else hostExtract host t

/-- JS `url.endsWith(".git") ? url : url + ".git"`. -/
def ensureGitUrl (url : String) : String :=
  if endsWithStr url ".git" then url else url ++ ".git"

/-- The fallback name regex of `parseGitUrl`, `([^/]+?)(?:\.git)?\/?$`:
its leftmost match captures the longest slash-free suffix (ignoring at most one
trailing slash); no such non-empty suffix means no match. -/
def customNameMatch (cs : List Char) : Option (List Char) :=
  let core := if cs.getLast? = some '/' then cs.dropLast else cs
  let run := (core.reverse.takeWhile (fun c => c ≠ '/')).reverse
  if run.isEmpty then none else some (lazyRepoName run)

/-- The custom-URL guard of `parseGitUrl`:
`url.includes("@") || url.startsWith("http://") || url.startsWith("https://") || url.startsWith("git://")`. -/
def customCondition (url : String) : Bool :=
  url.toList.contains '@' || startsWithStr url "http://" ||
    startsWithStr url "https://" || startsWithStr url "git://"

/-- From `parseGitUrl` in `src/utils/git-clone.ts`: try the GitHub, GitLab and
Bitbucket domain regexes in order, then the custom-URL guard, else null. -/
def parseGitUrl (url : String) : Option GitRepository :=
  let cs := url.toList
  if hostScan "github.com".toList cs then
    some { url := ensureGitUrl url
           name := String.mk (stripGitSuffix ((hostExtract "github.com".toList cs).getD []))
           provider := "github" }
  else if hostScan "gitlab.com".toList cs then
    some { url := ensureGitUrl url
           name := String.mk (stripGitSuffix ((hostExtract "gitlab.com".toList cs).getD []))
           provider := "gitlab" }
  else if hostScan "bitbucket.org".toList cs then
    some { url := ensureGitUrl url
           name := String.mk (stripGitSuffix ((hostExtract "bitbucket.org".toList cs).getD []))
           provider := "bitbucket" }
  else if customCondition url then
    some { url := ensureGitUrl url
           name :=
             match customNameMatch cs with
             | some cap => String.mk (stripGitSuffix cap)
             | none => "repository"
           provider := "custom" }
  else none

/-- From `buildAuthenticatedUrl` in `src/utils/git-clone.ts`.  A missing or
empty token (JS falsy) or a non-`https://` URL is returned unchanged; otherwise
`url.replace("https://", ...)` rewrites the prefix (the URL is known to start
with `https://`, so the first occurrence is the prefix) with the
provider-specific credential embedding. -/
def buildAuthenticatedUrl (url : String) (token : Option String)
    (provider : Option String) : String :=
  match token with
  | none => url
  | some t =>
    if t = "" then url
    else if startsWithStr url "https://" then
      let rest := dropStr url 8
      if provider = some "github" then "https://" ++ t ++ "@" ++ rest
      else if provider = some "gitlab" then "https://oauth2:" ++ t ++ "@" ++ rest
      else if provider = some "bitbucket" then "https://x-token-auth:" ++ t ++ "@" ++ rest
      else "https://" ++ t ++ "@" ++ rest
    else url

/-- The history-store effect of `handleQuickClone` in `src/clone-repo.tsx`.
Inputs abstract the I/O of the action: whether Cursor is installed, the result
of the `getRepositoryPath` check, and the outcome of `cloneRepository` (which
rethrows its error).  Returns the history list after the action: only the
successful open-existing and clone paths reach `addToHistory`; the catch block
only shows a toast. -/
def handleQuickClone (cursorInstalled : Bool) (existing : Option String)
    (cloneResult : Except String String) (repo : GitRepository) (now : Nat)
    (history : List (Project String)) : List (Project String) :=
  if !cursorInstalled then history
  else
    match existing with
    | some existingPath =>
      addToHistory
        { id := existingPath, name := repo.name, path := existingPath
          type := "remote", gitRemote := some repo.url } now history
    | none =>
      match cloneResult with
      | .ok clonedPath =>
        addToHistory
          { id := clonedPath, name := repo.name, path := clonedPath
            type := "remote", gitRemote := some repo.url, clonedAt := some now }
          now history
      | .error _ => history

/-- Modelled from the spec: an input of "any `scheme://` form" — a non-empty
scheme segment followed by the literal `://`.  Used only to compare the spec's
fallback condition with the one in the code. -/
def specSchemeForm (s : String) : Bool :=
  let pre := s.toList.takeWhile (fun c => c ≠ ':')
  !pre.isEmpty && ((s.toList.drop pre.length).take 3 == [':', '/', '/'])

/- ------------------------------------------------------------------ -/
/- Helper lemmas                                                       -/
/- ------------------------------------------------------------------ -/

lemma any_map_general {α β : Type} (f : α → β) (p : β → Bool) :
    ∀ l : List α, (l.map f).any p = l.any (fun a => p (f a))
  | [] => rfl
  | a :: t => by simp [List.any_cons, any_map_general f p t]

lemma any_congr_general {α : Type} {p q : α → Bool} :
    ∀ l : List α, (∀ a ∈ l, p a = q a) → l.any p = l.any q
  | [], _ => rfl
  | a :: t, h => by
    simp only [List.any_cons, h a (by simp)]
    rw [any_congr_general t (fun x hx => h x (by simp [hx]))]

lemma accessCheck_eq_true {access : String → AccessResult} {ind : String} :
    accessCheck access ind = true ↔ access ind = .ok := by
  unfold accessCheck
  cases h : access ind <;> simp

lemma countP_eraseP_id_eq_zero {π : Type} [DecidableEq π] (x : π) :
    ∀ h : List (Project π), (h.map Project.id).Nodup →
      (h.eraseP (fun p => p.id == x)).countP (fun p => p.id == x) = 0 := by
  intro h
  induction h with
  | nil => intro _; rfl
  | cons a t ih =>
    intro hnd
    rw [List.map_cons, List.nodup_cons] at hnd
    by_cases ha : a.id = x
    · rw [List.eraseP_cons_of_pos (by simp [ha])]
      rw [List.countP_eq_zero]
      intro q hq hqx
      simp only [beq_iff_eq] at hqx
      exact hnd.1 (by rw [ha, ← hqx]; exact List.mem_map_of_mem Project.id hq)
    · rw [List.eraseP_cons_of_neg (by simp [ha])]
      rw [List.countP_cons_of_neg _ _ (by simp [ha])]
      exact ih hnd.2

lemma addToHistory_eq {π : Type} [DecidableEq π] (p : Project π) (now : Nat)
    (h : List (Project π)) :
    addToHistory p now h =
      { p with lastAccessed := some now } ::
        (h.eraseP (fun q => q.id == p.id)).take 49 := by
  simp only [addToHistory, MAX_HISTORY_ITEMS]
  exact List.take_succ_cons

/-- A well-formed filesystem: sibling names are distinct, recursively (real
`readdir` output never lists one name twice). -/
inductive WFTree : FSTree → Prop where
  | node : ∀ {isDir : Bool} {mtime size : Nat}
      {children : List (String × FSTree)},
      (children.map Prod.fst).Nodup →
      (∀ e ∈ children, WFTree e.2) →
      WFTree (FSTree.node isDir mtime size children)

lemma WFTree.names_nodup {isDir : Bool} {mtime size : Nat}
    {children : List (String × FSTree)}
    (h : WFTree (FSTree.node isDir mtime size children)) :
    (children.map Prod.fst).Nodup := by
  cases h with
  | node h1 h2 => exact h1

lemma WFTree.child {isDir : Bool} {mtime size : Nat}
    {children : List (String × FSTree)} {name : String} {c : FSTree}
    (h : WFTree (FSTree.node isDir mtime size children))
    (hm : (name, c) ∈ children) : WFTree c := by
  cases h with
  | node h1 h2 => exact h2 (name, c) hm

lemma sizeOf_mem_child {name : String} {c : FSTree} {isDir : Bool}
    {mtime size : Nat} {children : List (String × FSTree)}
    (h : (name, c) ∈ children) :
    sizeOf c < sizeOf (FSTree.node isDir mtime size children) := by
  have h1 := List.sizeOf_lt_of_mem h
  simp only [Prod.mk.sizeOf_spec] at h1
  simp only [FSTree.node.sizeOf_spec]
  omega

lemma fstree_strong_ind (P : FSTree → Prop)
    (ih : ∀ t : FSTree, (∀ c : FSTree, sizeOf c < sizeOf t → P c) → P t)
    (t : FSTree) : P t := by
  generalize hn : sizeOf t = n
  induction n using Nat.strong_induction_on generalizing t with
  | _ n IH => exact ih t (fun c hc => IH (sizeOf c) (hn ▸ hc) c rfl)

lemma mem_scanChildren {p : Project Path} :
    ∀ (entries : List (String × FSTree)) (path : Path) (maxD k : Int)
      (excl : List String),
      p ∈ scanChildren entries path maxD k excl ↔
        ∃ name c, (name, c) ∈ entries ∧ c.isDir = true ∧
          shouldExcludeFolder name excl = false ∧
          p ∈ scanDirectory c (path ++ [name]) maxD (k + 1) excl := by
  intro entries
  induction entries with
  | nil => simp [scanChildren]
  | cons e rest ih =>
    obtain ⟨name, c⟩ := e
    intro path maxD k excl
    rw [scanChildren]
    rw [List.mem_append, ih]
    constructor
    · rintro (hblk | ⟨name', c', hm, hd, he, hp⟩)
      · by_cases hcond : c.isDir = true ∧ ¬ shouldExcludeFolder name excl = true
        · rw [if_pos hcond] at hblk
          exact ⟨name, c, List.mem_cons_self _ _, hcond.1,
            Bool.not_eq_true _ ▸ Bool.of_not_eq_true hcond.2, hblk⟩
        · rw [if_neg hcond] at hblk
          exact absurd hblk (List.not_mem_nil p)
      · exact ⟨name', c', List.mem_cons_of_mem _ hm, hd, he, hp⟩
    · rintro ⟨name', c', hm, hd, he, hp⟩
      rcases List.mem_cons.mp hm with heq | hm'
      · left
        obtain ⟨h1, h2⟩ := Prod.mk.injEq .. ▸ heq
        subst h1; subst h2
        rw [if_pos ⟨hd, by simp [he]⟩]
        exact hp
      · right
        exact ⟨name', c', hm', hd, he, hp⟩

lemma scanDirectory_extends_path :
    ∀ (t : FSTree) (path : Path) (maxD k : Int) (excl : List String)
      (p : Project Path), p ∈ scanDirectory t path maxD k excl →
        path <+: p.path := by
  intro t
  induction t using fstree_strong_ind with
  | _ t IH =>
    cases t with
    | node isDir mtime size children =>
      intro path maxD k excl p hmem
      rw [scanDirectory] at hmem
      by_cases hk : k > maxD
      · rw [if_pos hk] at hmem; exact absurd hmem (List.not_mem_nil p)
      rw [if_neg hk] at hmem
      cases isDir with
      | false => exact absurd hmem (List.not_mem_nil p)
      | true =>
        simp only [Bool.not_true, if_neg (by simp : ¬ (false = true))] at hmem
        by_cases hex :
            shouldExcludeFolder (basenameOf path) excl = true
        · rw [if_pos hex] at hmem; exact absurd hmem (List.not_mem_nil p)
        rw [if_neg hex] at hmem
        by_cases hproj :
            ¬ hasSubProjects (FSTree.node true mtime size children) excl = true
              ∧ isProjectDir (FSTree.node true mtime size children) = true
        · rw [if_pos hproj] at hmem
          rcases List.mem_singleton.mp hmem with rfl
          exact List.prefix_refl _
        rw [if_neg hproj] at hmem
        by_cases hlt : k < maxD
        · rw [if_pos hlt] at hmem
          rcases (mem_scanChildren children path maxD k excl).mp hmem with
            ⟨name, c, hm, _, _, hp⟩
          exact List.IsPrefix.trans (List.prefix_append path [name])
            (IH c (sizeOf_mem_child hm) (path ++ [name]) maxD (k + 1) excl p hp)
        · rw [if_neg hlt] at hmem; exact absurd hmem (List.not_mem_nil p)

lemma scanChildren_path_strict {p : Project Path}
    {entries : List (String × FSTree)} {path : Path} {maxD k : Int}
    {excl : List String} (h : p ∈ scanChildren entries path maxD k excl) :
    path.length < p.path.length := by
  rcases (mem_scanChildren entries path maxD k excl).mp h with
    ⟨name, c, _, _, _, hp⟩
  have hpre := scanDirectory_extends_path c (path ++ [name]) maxD (k + 1) excl p hp
  have := hpre.length_le
  simp only [List.length_append, List.length_cons, List.length_nil] at this
  omega

lemma snoc_prefix_eq {path : Path} {a b : String} {l : Path}
    (ha : path ++ [a] <+: l) (hb : path ++ [b] <+: l) : a = b := by
  obtain ⟨r1, h1⟩ := ha
  obtain ⟨r2, h2⟩ := hb
  rw [← h1, List.append_assoc, List.append_assoc] at h2
  have h3 := List.append_cancel_left h2
  simp only [List.singleton_append, List.cons.injEq] at h3
  exact h3.1.symm

lemma incomp_of_distinct_snoc {path : Path} {a b : String} {l1 l2 : Path}
    (hab : a ≠ b) (ha : path ++ [a] <+: l1) (hb : path ++ [b] <+: l2) :
    ¬ l1 <+: l2 :=
  fun h => hab (snoc_prefix_eq (ha.trans h) hb)

lemma scanChildren_pairwise :
    ∀ (entries : List (String × FSTree)) (path : Path) (maxD k : Int)
      (excl : List String),
      (entries.map Prod.fst).Nodup →
      (∀ name c, (name, c) ∈ entries →
        (scanDirectory c (path ++ [name]) maxD (k + 1) excl).Pairwise
          (fun p q => ¬ p.path <+: q.path ∧ ¬ q.path <+: p.path)) →
      (scanChildren entries path maxD k excl).Pairwise
        (fun p q => ¬ p.path <+: q.path ∧ ¬ q.path <+: p.path) := by
  intro entries
  induction entries with
  | nil => intro path maxD k excl _ _; simp [scanChildren]
  | cons e rest ih =>
    obtain ⟨name, c⟩ := e
    intro path maxD k excl hnd hIH
    rw [List.map_cons, List.nodup_cons] at hnd
    rw [scanChildren, List.pairwise_append]
    refine ⟨?_, ?_, ?_⟩
    · by_cases hcond : c.isDir = true ∧ ¬ shouldExcludeFolder name excl = true
      · rw [if_pos hcond]
        exact hIH name c (List.mem_cons_self _ _)
      · rw [if_neg hcond]; exact List.Pairwise.nil
    · exact ih path maxD k excl hnd.2
        (fun n c' hm => hIH n c' (List.mem_cons_of_mem _ hm))
    · intro p hp q hq
      by_cases hcond : c.isDir = true ∧ ¬ shouldExcludeFolder name excl = true
      · rw [if_pos hcond] at hp
        rcases (mem_scanChildren rest path maxD k excl).mp hq with
          ⟨name', c', hm', _, _, hq'⟩
        have hne : name ≠ name' := by
          intro hcontra
          apply hnd.1
          rw [hcontra]
          exact List.mem_map.mpr ⟨(name', c'), hm', rfl⟩
        have ha := scanDirectory_extends_path c (path ++ [name]) maxD (k + 1) excl p hp
        have hb := scanDirectory_extends_path c' (path ++ [name']) maxD (k + 1) excl q hq'
        exact ⟨incomp_of_distinct_snoc hne ha hb,
          incomp_of_distinct_snoc hne.symm hb ha⟩
      · rw [if_neg hcond] at hp
        exact absurd hp (List.not_mem_nil p)

lemma scanDirectory_pairwise :
    ∀ t : FSTree, WFTree t → ∀ (path : Path) (maxD k : Int) (excl : List String),
      (scanDirectory t path maxD k excl).Pairwise
        (fun p q => ¬ p.path <+: q.path ∧ ¬ q.path <+: p.path) := by
  intro t
  induction t using fstree_strong_ind with
  | _ t IH =>
    cases t with
    | node isDir mtime size children =>
      intro hwf path maxD k excl
      rw [scanDirectory]
      by_cases hk : k > maxD
      · rw [if_pos hk]; exact List.Pairwise.nil
      rw [if_neg hk]
      cases isDir with
      | false => exact List.Pairwise.nil
      | true =>
        rw [if_neg (by simp : ¬ (!true) = true)]
        by_cases hex : shouldExcludeFolder (basenameOf path) excl = true
        · rw [if_pos hex]; exact List.Pairwise.nil
        rw [if_neg hex]
        by_cases hproj :
            ¬ hasSubProjects (FSTree.node true mtime size children) excl = true
              ∧ isProjectDir (FSTree.node true mtime size children) = true
        · rw [if_pos hproj]
          exact List.pairwise_singleton _ _
        rw [if_neg hproj]
        by_cases hlt : k < maxD
        · rw [if_pos hlt]
          exact scanChildren_pairwise children path maxD k excl hwf.names_nodup
            (fun name c hm =>
              IH c (sizeOf_mem_child hm) (hwf.child hm) (path ++ [name]) maxD
                (k + 1) excl)
        · rw [if_neg hlt]; exact List.Pairwise.nil

lemma resolvePath_wf :
    ∀ (segs : Path) (t u : FSTree), WFTree t → resolvePath t segs = some u →
      WFTree u := by
  intro segs
  induction segs with
  | nil =>
    intro t u hwf h
    rw [resolvePath] at h
    cases h
    exact hwf
  | cons seg rest ih =>
    intro t u hwf h
    rw [resolvePath] at h
    cases hfind : t.children.find? (fun e => e.1 == seg) with
    | none => rw [hfind] at h; exact absurd h (by simp)
    | some e =>
      rw [hfind] at h
      have hm := List.mem_of_find?_eq_some hfind
      cases t with
      | node d m s cs =>
        exact ih e.2 u (@WFTree.child d m s cs e.1 e.2 hwf (by simpa using hm)) h

lemma mem_rootScan {p : Project Path} {world : FSTree} {maxD : Int}
    {excl : List String} {rp : Path} (h : p ∈ rootScan world maxD excl rp) :
    rp <+: p.path := by
  rw [rootScan] at h
  cases hres : resolvePath world rp with
  | none => rw [hres] at h; exact absurd h (List.not_mem_nil p)
  | some t =>
    rw [hres] at h
    exact scanDirectory_extends_path t rp maxD 0 excl p h

lemma rootScan_pairwise {world : FSTree} {maxD : Int} {excl : List String}
    {rp : Path} (hwf : WFTree world) :
    (rootScan world maxD excl rp).Pairwise
      (fun p q => ¬ p.path <+: q.path ∧ ¬ q.path <+: p.path) := by
  rw [rootScan]
  cases hres : resolvePath world rp with
  | none => exact List.Pairwise.nil
  | some t => exact scanDirectory_pairwise t (resolvePath_wf rp world t hwf hres) rp maxD 0 excl

lemma foldl_append_eq_flatten {α β : Type} (f : α → List β) :
    ∀ (roots : List α) (acc : List β),
      roots.foldl (fun a r => a ++ f r) acc = acc ++ (roots.map f).flatten
  | [], acc => by simp
  | r :: rest, acc => by
    rw [List.foldl_cons, foldl_append_eq_flatten f rest (acc ++ f r)]
    simp [List.append_assoc]

lemma scanRoots_eq_flatten (world : FSTree) (roots : List Path) (maxD : Int)
    (excl : List String) :
    scanRoots world roots maxD excl =
      (roots.map (rootScan world maxD excl)).flatten := by
  rw [scanRoots, foldl_append_eq_flatten]
  simp

lemma hasSubProjects_true_of_child {t : FSTree} {excl : List String}
    (hdir : t.isDir = true)
    (h : ∃ name c, (name, c) ∈ t.children ∧ c.isDir = true ∧
      shouldExcludeFolder name excl = false ∧ isProjectDir c = true) :
    hasSubProjects t excl = true := by
  obtain ⟨name, c, hm, hcdir, hexcl, hproj⟩ := h
  rw [hasSubProjects, if_pos hdir, List.any_eq_true]
  exact ⟨(name, c), hm, by simp [hexcl, hcdir, hproj]⟩

lemma scanDirectory_of_excluded {t : FSTree} {path : Path} {maxD k : Int}
    {excl : List String}
    (h : shouldExcludeFolder (basenameOf path) excl = true) :
    scanDirectory t path maxD k excl = [] := by
  cases t with
  | node isDir mtime size children =>
    rw [scanDirectory]
    by_cases hk : k > maxD
    · rw [if_pos hk]
    · rw [if_neg hk]
      cases isDir with
      | false => rfl
      | true => rw [if_neg (by simp : ¬ (!true) = true), if_pos h]

lemma scanDirectory_name_not_excluded :
    ∀ (t : FSTree) (path : Path) (maxD k : Int) (excl : List String)
      (p : Project Path), p ∈ scanDirectory t path maxD k excl →
      shouldExcludeFolder p.name excl = false := by
  intro t
  induction t using fstree_strong_ind with
  | _ t IH =>
    cases t with
    | node isDir mtime size children =>
      intro path maxD k excl p hmem
      rw [scanDirectory] at hmem
      by_cases hk : k > maxD
      · rw [if_pos hk] at hmem; exact absurd hmem (List.not_mem_nil p)
      rw [if_neg hk] at hmem
      cases isDir with
      | false => exact absurd hmem (List.not_mem_nil p)
      | true =>
        rw [if_neg (by simp : ¬ (!true) = true)] at hmem
        by_cases hex : shouldExcludeFolder (basenameOf path) excl = true
        · rw [if_pos hex] at hmem; exact absurd hmem (List.not_mem_nil p)
        rw [if_neg hex] at hmem
        by_cases hproj :
            ¬ hasSubProjects (FSTree.node true mtime size children) excl = true
              ∧ isProjectDir (FSTree.node true mtime size children) = true
        · rw [if_pos hproj] at hmem
          rcases List.mem_singleton.mp hmem with rfl
          exact Bool.of_not_eq_true hex
        rw [if_neg hproj] at hmem
        by_cases hlt : k < maxD
        · rw [if_pos hlt] at hmem
          rcases (mem_scanChildren children path maxD k excl).mp hmem with
            ⟨name, c, hm, _, _, hp⟩
          exact IH c (sizeOf_mem_child hm) (path ++ [name]) maxD (k + 1) excl p hp
        · rw [if_neg hlt] at hmem; exact absurd hmem (List.not_mem_nil p)

lemma containsSeq_correct (pat : List Char) :
    ∀ s : List Char, containsSeq pat s = true ↔ pat <:+: s
  | [] => by cases pat <;> simp [containsSeq]
  | c :: t => by
    rw [containsSeq, Bool.or_eq_true, List.isPrefixOf_iff_prefix,
      containsSeq_correct pat t]
    exact (@List.infix_cons_iff Char pat c t).symm

/- ------------------------------------------------------------------ -/
/- C1: container precedence over project classification                -/
/- ------------------------------------------------------------------ -/

/-- C1: a visited directory with a non-excluded immediate child directory that
is itself a project never gets a `ProjectEntry` of its own (even if it carries
a marker such as `.git`), and — when the directory survives the depth,
readability and exclusion gates and depth budget remains — the walker still
recurses into its non-excluded child directories. -/
theorem C1_container_precedence (t : FSTree) (path : Path) (maxD k : Int)
    (excl : List String)
    (hchild : ∃ name c, (name, c) ∈ t.children ∧ c.isDir = true ∧
      shouldExcludeFolder name excl = false ∧ isProjectDir c = true) :
    (∀ p ∈ scanDirectory t path maxD k excl, p.path ≠ path)
    ∧ (t.isDir = true → shouldExcludeFolder (basenameOf path) excl = false →
        k < maxD →
        scanDirectory t path maxD k excl =
          scanChildren t.children path maxD k excl) := by
  cases t with
  | node isDir mtime size children =>
    constructor
    · intro p hmem
      rw [scanDirectory] at hmem
      by_cases hk : k > maxD
      · rw [if_pos hk] at hmem; exact absurd hmem (List.not_mem_nil p)
      rw [if_neg hk] at hmem
      cases isDir with
      | false => exact absurd hmem (List.not_mem_nil p)
      | true =>
        rw [if_neg (by simp : ¬ (!true) = true)] at hmem
        by_cases hex : shouldExcludeFolder (basenameOf path) excl = true
        · rw [if_pos hex] at hmem; exact absurd hmem (List.not_mem_nil p)
        rw [if_neg hex] at hmem
        have hsubs : hasSubProjects (FSTree.node true mtime size children) excl = true :=
          hasSubProjects_true_of_child rfl hchild
        rw [if_neg (by simp [hsubs])] at hmem
        by_cases hlt : k < maxD
        · rw [if_pos hlt] at hmem
          have := scanChildren_path_strict hmem
          intro heq
          rw [heq] at this
          omega
        · rw [if_neg hlt] at hmem; exact absurd hmem (List.not_mem_nil p)
    · intro hdir hex hlt
      have hd : isDir = true := hdir
      subst hd
      have hsubs : hasSubProjects (FSTree.node true mtime size children) excl = true :=
        hasSubProjects_true_of_child rfl hchild
      rw [scanDirectory, if_neg (by omega : ¬ k > maxD),
        if_neg (by simp : ¬ (!true) = true), if_neg (by simp [hex]),
        if_neg (by simp [hsubs]), if_pos hlt]
      rfl

/-- A monorepo-style directory for the C1 witness: it carries its own `.git`
and also contains the nested project `sub` (which has a `package.json`). -/
def cexMonorepo : FSTree :=
  .node true 9 9
    [("sub", .node true 3 4 [("package.json", .node false 1 0 [])]),
     (".git", .node true 0 0 [])]

/-- Witness for C1: the monorepo root emits no entry for itself and recurses
into its children. -/
theorem C1_container_precedence_witness :
    (∀ p ∈ scanDirectory cexMonorepo ["w"] 3 0 [], p.path ≠ ["w"])
    ∧ scanDirectory cexMonorepo ["w"] 3 0 [] =
        scanChildren cexMonorepo.children ["w"] 3 0 [] :=
  have hx := C1_container_precedence cexMonorepo ["w"] 3 0 []
    ⟨"sub", .node true 3 4 [("package.json", .node false 1 0 [])],
      List.mem_cons_self _ _, rfl, rfl, by decide⟩
  ⟨hx.1, hx.2 rfl (by decide) (by decide)⟩

/- ------------------------------------------------------------------ -/
/- C2: uniqueness and non-nesting of the emitted list                  -/
/- ------------------------------------------------------------------ -/

/-- A world tree in which the directory `a` is a project (it contains `.git`). -/
def cexProjectChild : FSTree := .node true 0 0 [(".git", .node true 0 0 [])]

/-- World with two project directories `a` and `b` for the C2 theorems. -/
def cexWorld : FSTree :=
  .node true 0 0 [("a", cexProjectChild), ("b", cexProjectChild)]

/-- Preferences used by the C2 theorems: depth 3, no exclusions. -/
def cexPrefs : Preferences :=
  { scanDirectories := "a,a", scanDepth := "3", excludedFolders := "",
    cloneDirectory := "~/Projects" }

/-- C2 (counterexample): with the same root configured twice (the configured
roots are a comma-separated preference, so `"a,a"` is possible), one invocation
of the scan entry point emits the same project path twice, violating the
claimed uniqueness. -/
theorem C2_counterexample :
    (scanProjectsFresh cexWorld [["a"], ["a"]] cexPrefs).map Project.path =
      [["a"], ["a"]]
    ∧ ¬ (scanProjectsFresh cexWorld [["a"], ["a"]] cexPrefs).Pairwise
        (fun p q => p.path ≠ q.path ∧ ¬ p.path <+: q.path ∧ ¬ q.path <+: p.path) := by
  have hmap : (scanProjectsFresh cexWorld [["a"], ["a"]] cexPrefs).map
      Project.path = [["a"], ["a"]] := by decide
  refine ⟨hmap, fun hpw => ?_⟩
  have h2 := @List.Pairwise.map Path (Project Path) _ _
    (fun x y : Path => x ≠ y) Project.path (fun a b hab => hab.1) hpw
  rw [hmap] at h2
  rcases h2 with _ | ⟨h3, _⟩
  exact h3 (["a"] : Path) (List.mem_singleton.mpr rfl) rfl

lemma scanRoots_pairwise_paths (world : FSTree) (roots : List Path)
    (maxD : Int) (excl : List String) (hwf : WFTree world)
    (hroots : roots.Pairwise (fun r1 r2 => ¬ r1 <+: r2 ∧ ¬ r2 <+: r1)) :
    (scanRoots world roots maxD excl).Pairwise
      (fun p q => p.path ≠ q.path ∧ ¬ p.path <+: q.path ∧ ¬ q.path <+: p.path) := by
  rw [scanRoots_eq_flatten]
  rw [List.pairwise_flatten]
  constructor
  · intro l hl
    rcases List.mem_map.mp hl with ⟨rp, _, rfl⟩
    exact (rootScan_pairwise hwf).imp
      (fun hpq => ⟨fun heq => hpq.1 (heq ▸ List.prefix_refl _), hpq.1, hpq.2⟩)
  · rw [List.pairwise_map]
    refine hroots.imp ?_
    intro r1 r2 hr p hp q hq
    have h1 := mem_rootScan hp
    have h2 := mem_rootScan hq
    refine ⟨?_, ?_, ?_⟩
    · intro heq
      rcases List.prefix_or_prefix_of_prefix (heq ▸ h1) h2 with h | h
      exacts [hr.1 h, hr.2 h]
    · intro hpq
      rcases List.prefix_or_prefix_of_prefix (h1.trans hpq) h2 with h | h
      exacts [hr.1 h, hr.2 h]
    · intro hqp
      rcases List.prefix_or_prefix_of_prefix (h2.trans hqp) h1 with h | h
      exacts [hr.2 h, hr.1 h]

/-- C2 (amended): on a well-formed filesystem, when the resolved root paths
are pairwise non-overlapping (no root equal to or an ancestor of another), a
single invocation of the scan entry point emits no two entries with the same
path and no entry whose path lies strictly below another emitted entry.  With
equal or nested roots the code can emit duplicates (see the counterexample). -/
theorem C2_scan_unique_non_nested (world : FSTree) (roots : List Path)
    (prefs : Preferences) (hwf : WFTree world)
    (hroots : roots.Pairwise (fun r1 r2 => ¬ r1 <+: r2 ∧ ¬ r2 <+: r1)) :
    (scanProjectsFresh world roots prefs).Pairwise
      (fun p q => p.path ≠ q.path ∧ ¬ p.path <+: q.path ∧ ¬ q.path <+: p.path) := by
  rw [scanProjectsFresh]
  exact scanRoots_pairwise_paths world roots (scanDepthOf prefs.scanDepth)
    (parsePrefList prefs.excludedFolders) hwf hroots

/-- Witness for C2: two disjoint roots over a well-formed world. -/
theorem C2_scan_unique_non_nested_witness :
    (scanProjectsFresh cexWorld [["a"], ["b"]] cexPrefs).Pairwise
      (fun p q => p.path ≠ q.path ∧ ¬ p.path <+: q.path ∧ ¬ q.path <+: p.path) :=
  C2_scan_unique_non_nested cexWorld [["a"], ["b"]] cexPrefs
    (WFTree.node (by decide) (fun e he => by
      rcases List.mem_cons.mp he with rfl | he'
      · exact WFTree.node (by decide) (fun e2 he2 => by
          rcases List.mem_singleton.mp he2 with rfl
          exact WFTree.node (by decide) (fun e3 he3 =>
            absurd he3 (List.not_mem_nil e3)))
      · rcases List.mem_singleton.mp he' with rfl
        exact WFTree.node (by decide) (fun e2 he2 => by
          rcases List.mem_singleton.mp he2 with rfl
          exact WFTree.node (by decide) (fun e3 he3 =>
            absurd he3 (List.not_mem_nil e3)))))
    (by decide)

/- ------------------------------------------------------------------ -/
/- C4: exclusion semantics                                             -/
/- ------------------------------------------------------------------ -/

/-- C4: a folder name is excluded iff its case-folded form contains some
case-folded, trimmed exclusion pattern as a substring; a directory whose
basename is excluded yields nothing (at any remaining depth); no emitted entry
has an excluded name; and both the recency walk and the child-recursion loop
skip an excluded entry entirely. -/
theorem C4_exclusion :
    (∀ (name : String) (excl : List String),
      shouldExcludeFolder name excl = true ↔
        ∃ pat ∈ excl, (trimStr (toLowerStr pat)).toList <:+: (toLowerStr name).toList)
    ∧ (∀ (t : FSTree) (path : Path) (maxD k : Int) (excl : List String),
        shouldExcludeFolder (basenameOf path) excl = true →
        scanDirectory t path maxD k excl = [])
    ∧ (∀ (t : FSTree) (path : Path) (maxD k : Int) (excl : List String)
        (p : Project Path), p ∈ scanDirectory t path maxD k excl →
        shouldExcludeFolder p.name excl = false)
    ∧ (∀ (excl : List String) (maxD : Int) (name : String) (c : FSTree)
        (rest : List (String × FSTree)) (depth : Int) (latest : Option Nat),
        shouldExcludeFolder name excl = true →
        latestLoop excl maxD ((name, c) :: rest) depth latest =
          latestLoop excl maxD rest depth latest)
    ∧ (∀ (excl : List String) (path : Path) (maxD k : Int) (name : String)
        (c : FSTree) (rest : List (String × FSTree)),
        shouldExcludeFolder name excl = true →
        scanChildren ((name, c) :: rest) path maxD k excl =
          scanChildren rest path maxD k excl) := by
  refine ⟨?_, ?_, ?_, ?_, ?_⟩
  · intro name excl
    rw [shouldExcludeFolder, List.any_eq_true]
    constructor
    · rintro ⟨pat, hmem, hinc⟩
      exact ⟨pat, hmem, (containsSeq_correct _ _).mp hinc⟩
    · rintro ⟨pat, hmem, hinf⟩
      exact ⟨pat, hmem, (containsSeq_correct _ _).mpr hinf⟩
  · intro t path maxD k excl h
    exact scanDirectory_of_excluded h
  · intro t path maxD k excl p h
    exact scanDirectory_name_not_excluded t path maxD k excl p h
  · intro excl maxD name c rest depth latest h
    rw [latestLoop, if_pos h]
  · intro excl path maxD k name c rest h
    rw [scanChildren, if_neg (by simp [h]), List.nil_append]

/-- The entry the walker emits for the `sub` project of `cexMonorepo`. -/
def sampleSubEntry : Project Path :=
  { id := ["w", "sub"], name := "sub", path := ["w", "sub"], type := "local",
    size := some 4, lastModified := some 1 }

/-- Witness for C4: concrete exclusion of `node_modules` in every component. -/
theorem C4_exclusion_witness :
    (shouldExcludeFolder "my_node_modules2" [" Node_Modules "] = true ↔
      ∃ pat ∈ [" Node_Modules "],
        (trimStr (toLowerStr pat)).toList <:+:
          (toLowerStr "my_node_modules2").toList)
    ∧ scanDirectory cexProjectChild ["node_modules"] 3 0 ["node_modules"] = []
    ∧ shouldExcludeFolder sampleSubEntry.name [".git"] = false
    ∧ latestLoop ["node_modules"] 2 [("node_modules", cexProjectChild)] 0 none =
        latestLoop ["node_modules"] 2 [] 0 none
    ∧ scanChildren [("node_modules", cexProjectChild)] ["p"] 3 0 ["node_modules"] =
        scanChildren [] ["p"] 3 0 ["node_modules"] :=
  ⟨C4_exclusion.1 "my_node_modules2" [" Node_Modules "],
   C4_exclusion.2.1 cexProjectChild ["node_modules"] 3 0 ["node_modules"] (by decide),
   C4_exclusion.2.2.1 cexMonorepo ["w"] 3 0 [".git"] sampleSubEntry (by decide),
   C4_exclusion.2.2.2.1 ["node_modules"] 2 "node_modules" cexProjectChild [] 0 none
     (by decide),
   C4_exclusion.2.2.2.2 ["node_modules"] ["p"] 3 0 "node_modules" cexProjectChild []
     (by decide)⟩

/- ------------------------------------------------------------------ -/
/- C3: scan depth parsing                                              -/
/- ------------------------------------------------------------------ -/

/-- C3 (counterexample): the claim says the scan depth equals the parsed
integer, with 3 exactly when the string is unparsable; but on the preference
string "0", `parseInt` succeeds with 0, yet the code's `parseInt(...) || 3`
treats 0 as falsy and uses depth 3. -/
theorem C3_counterexample :
    parseIntJS "0" = some 0 ∧ scanDepthOf "0" = 3 ∧ (0 : Int) ≠ 3 := by
  refine ⟨by decide, by decide, by decide⟩

/-- C3 (amended): the scan depth used by the scan entry point equals the
integer `parseInt` extracts from the `scanDepth` preference whenever that
integer is nonzero, and equals 3 when the string is unparsable or parses to 0. -/
theorem C3_scanDepth :
    ∀ s : String,
      (parseIntJS s = none → scanDepthOf s = 3)
      ∧ (parseIntJS s = some 0 → scanDepthOf s = 3)
      ∧ (∀ n : Int, parseIntJS s = some n → n ≠ 0 → scanDepthOf s = n) := by
  intro s
  refine ⟨fun h => ?_, fun h => ?_, fun n h hn => ?_⟩
  · simp [scanDepthOf, jsOrDefaultInt, h]
  · simp [scanDepthOf, jsOrDefaultInt, h]
  · simp [scanDepthOf, jsOrDefaultInt, h, hn]

/-- Witness for C3: concrete evaluations through the amended theorem. -/
theorem C3_scanDepth_witness :
    scanDepthOf "abc" = 3 ∧ scanDepthOf "0" = 3 ∧ scanDepthOf "5" = 5 :=
  ⟨(C3_scanDepth "abc").1 (by decide),
   (C3_scanDepth "0").2.1 (by decide),
   (C3_scanDepth "5").2.2 5 (by decide) (by decide)⟩

/- ------------------------------------------------------------------ -/
/- C5: project markers and access errors                               -/
/- ------------------------------------------------------------------ -/

/-- C5: `isProjectDirectory` is true iff at least one marker of the fixed list
exists (its access check succeeds); an error on an individual existence check
is mapped to "marker absent" by the per-check catch and never propagated; the
marker list contains neither `.vscode` nor `.idea`; and the tree-level matcher
used by the walker agrees with the access-level one. -/
theorem C5_isProjectDirectory :
    (∀ access : String → AccessResult,
      isProjectDirectoryAcc access = true ↔
        ∃ ind ∈ PROJECT_INDICATORS, access ind = .ok)
    ∧ ".vscode" ∉ PROJECT_INDICATORS
    ∧ ".idea" ∉ PROJECT_INDICATORS
    ∧ (∀ (access : String → AccessResult) (ind msg : String),
        access ind = .err msg → accessCheck access ind = false)
    ∧ (∀ t : FSTree, isProjectDir t =
        isProjectDirectoryAcc
          (fun ind => if t.hasEntry ind then .ok else .err "ENOENT")) := by
  refine ⟨fun access => ?_, by decide, by decide, fun access ind msg h => ?_, fun t => ?_⟩
  · rw [isProjectDirectoryAcc, any_map_general, List.any_eq_true]
    constructor
    · rintro ⟨ind, hmem, hchk⟩
      exact ⟨ind, hmem, accessCheck_eq_true.mp hchk⟩
    · rintro ⟨ind, hmem, hok⟩
      exact ⟨ind, hmem, accessCheck_eq_true.mpr hok⟩
  · simp [accessCheck, h]
  · rw [isProjectDirectoryAcc, any_map_general, isProjectDir]
    apply (any_congr_general _ _).symm
    intro ind _
    by_cases h : t.hasEntry ind = true <;> simp [accessCheck, h]

/-- Witness for C5: the error-absorption component at a concrete access map. -/
theorem C5_isProjectDirectory_witness :
    accessCheck (fun _ => .err "EACCES") ".git" = false
    ∧ (isProjectDirectoryAcc (fun ind => if ind = "go.mod" then .ok else .err "EACCES") = true ↔
        ∃ ind ∈ PROJECT_INDICATORS,
          (if ind = "go.mod" then AccessResult.ok else .err "EACCES") = .ok) :=
  ⟨C5_isProjectDirectory.2.2.2.1 (fun _ => .err "EACCES") ".git" "EACCES" rfl,
   C5_isProjectDirectory.1 (fun ind => if ind = "go.mod" then .ok else .err "EACCES")⟩

/- ------------------------------------------------------------------ -/
/- C6: cache round-trip and 24h staleness                              -/
/- ------------------------------------------------------------------ -/

/-- C6: `set` immediately followed by `get` returns the same list; `get`
returns none when no timestamp record exists or the record is more than 24
hours old, and otherwise returns the stored cache slot verbatim. -/
theorem C6_cache :
    (∀ (l : List (Project Path)) (now : Nat),
      getCachedProjects (setCachedProjects l now) now = some l)
    ∧ (∀ (st : CacheState) (now : Nat),
        st.timestamp = none → getCachedProjects st now = none)
    ∧ (∀ (st : CacheState) (now ts : Nat), st.timestamp = some ts →
        now - ts > CACHE_DURATION_MS → getCachedProjects st now = none)
    ∧ (∀ (st : CacheState) (now ts : Nat), st.timestamp = some ts →
        ¬ now - ts > CACHE_DURATION_MS → getCachedProjects st now = st.cache) := by
  refine ⟨fun l now => ?_, fun st now h => ?_, fun st now ts h hage => ?_,
    fun st now ts h hage => ?_⟩
  · simp [getCachedProjects, setCachedProjects, CACHE_DURATION_MS]
  · simp [getCachedProjects, h]
  · simp [getCachedProjects, h, hage]
  · simp [getCachedProjects, h, hage]

/-- Witness for C6: a concrete round-trip, expiry, and verbatim read. -/
theorem C6_cache_witness :
    getCachedProjects (setCachedProjects [] 1000) 1000 = some []
    ∧ getCachedProjects { cache := some [], timestamp := none } 5 = none
    ∧ getCachedProjects (setCachedProjects [] 0) (CACHE_DURATION_MS + 1) = none
    ∧ getCachedProjects { cache := none, timestamp := some 0 } 10 =
        CacheState.cache { cache := none, timestamp := some 0 } :=
  ⟨C6_cache.1 [] 1000,
   C6_cache.2.1 { cache := some [], timestamp := none } 5 rfl,
   C6_cache.2.2.1 (setCachedProjects [] 0) (CACHE_DURATION_MS + 1) 0 rfl (by decide),
   C6_cache.2.2.2 { cache := none, timestamp := some 0 } 10 0 rfl (by decide)⟩

/- ------------------------------------------------------------------ -/
/- C7: history add semantics                                           -/
/- ------------------------------------------------------------------ -/

/-- C7: on a history whose ids are pairwise distinct (the store invariant),
`addToHistory` places exactly one entry for the project at the front, stamped
with the current access time, removes any previous entry with that id, keeps id
uniqueness, never exceeds 50 entries, and — when 50 distinct other entries are
present — evicts the oldest (the 50th) entry. -/
theorem C7_addToHistory {π : Type} [DecidableEq π] (history : List (Project π))
    (p : Project π) (now : Nat) (hnd : (history.map Project.id).Nodup) :
    (addToHistory p now history).head? = some { p with lastAccessed := some now }
    ∧ (addToHistory p now history).countP (fun q => q.id == p.id) = 1
    ∧ ((addToHistory p now history).map Project.id).Nodup
    ∧ (addToHistory p now history).length ≤ MAX_HISTORY_ITEMS
    ∧ (history.length = MAX_HISTORY_ITEMS → (∀ q ∈ history, q.id ≠ p.id) →
        addToHistory p now history =
          { p with lastAccessed := some now } ::
            history.take (MAX_HISTORY_ITEMS - 1)) := by
  have he := addToHistory_eq p now history
  have hzero := countP_eraseP_id_eq_zero p.id history hnd
  have htake :
      ((history.eraseP (fun q => q.id == p.id)).take 49).countP
        (fun q => q.id == p.id) = 0 :=
    Nat.le_zero.mp (hzero ▸ List.Sublist.countP_le _ (List.take_sublist _ _))
  have herasednd :
      ((history.eraseP (fun q => q.id == p.id)).map Project.id).Nodup :=
    List.Nodup.sublist (List.Sublist.map _ (List.eraseP_sublist _)) hnd
  refine ⟨?_, ?_, ?_, ?_, ?_⟩
  · rw [he]; rfl
  · rw [he, List.countP_cons_of_pos _ _ (by simp), htake]
  · rw [he, List.map_cons, List.nodup_cons]
    constructor
    · intro hmem
      rcases List.mem_map.mp hmem with ⟨q, hq, hqid⟩
      have hqmem := List.mem_of_mem_take hq
      have := List.countP_eq_zero.mp hzero q hqmem
      simp only [beq_iff_eq] at this
      exact this hqid
    · exact List.Nodup.sublist
        (List.Sublist.map _ (List.take_sublist _ _)) herasednd
  · rw [he]
    have := List.length_take_le 49 (history.eraseP (fun q => q.id == p.id))
    simp only [List.length_cons, MAX_HISTORY_ITEMS]
    omega
  · intro _ hall
    rw [he, List.eraseP_of_forall_not (by simp_all)]
    rfl

/-- Witness for C7: adding to a one-element history with a distinct id. -/
theorem C7_addToHistory_witness :
    (addToHistory { id := "/p/a", name := "a", path := "/p/a", type := "local" }
        7 [{ id := "/p/b", name := "b", path := "/p/b", type := "local" }]).countP
      (fun q => q.id == "/p/a") = 1
    ∧ (addToHistory { id := "/p/a", name := "a", path := "/p/a", type := "local" }
        7 [{ id := "/p/b", name := "b", path := "/p/b", type := "local" }]).head? =
      some { id := "/p/a", name := "a", path := "/p/a", type := "local",
             lastAccessed := some 7 } :=
  ⟨(C7_addToHistory
      ([{ id := "/p/b", name := "b", path := "/p/b", type := "local" }] :
        List (Project String))
      { id := "/p/a", name := "a", path := "/p/a", type := "local" } 7
      (by decide)).2.1,
   (C7_addToHistory
      ([{ id := "/p/b", name := "b", path := "/p/b", type := "local" }] :
        List (Project String))
      { id := "/p/a", name := "a", path := "/p/a", type := "local" } 7
      (by decide)).1⟩

/- ------------------------------------------------------------------ -/
/- C8: git URL parsing                                                 -/
/- ------------------------------------------------------------------ -/

/-- C8 (counterexample): the claim promises a non-null "custom" result for any
`scheme://` input, but `ssh://example.com/repo` is of `scheme://` form and
`parseGitUrl` returns null on it (the code only accepts `http://`, `https://`,
`git://`, or inputs containing `@`). -/
theorem C8_counterexample :
    parseGitUrl "ssh://example.com/repo" = none
    ∧ specSchemeForm "ssh://example.com/repo" = true :=
  ⟨by decide, by decide⟩

/-- C8 (amended): `parseGitUrl` recognizes github.com, gitlab.com and
bitbucket.org URLs by their domain regexes (tried in that order); for every
other input it returns a repository with provider "custom" exactly when the
input contains `@` or starts with `http://`, `https://`, or `git://`, and
returns null otherwise (so a `scheme://` URL with any other scheme, e.g.
`ssh://`, is rejected). -/
theorem C8_parseGitUrl :
    ∀ url : String,
      (hostScan "github.com".toList url.toList = true →
        (parseGitUrl url).map GitRepository.provider = some "github")
      ∧ (hostScan "github.com".toList url.toList = false →
          hostScan "gitlab.com".toList url.toList = true →
          (parseGitUrl url).map GitRepository.provider = some "gitlab")
      ∧ (hostScan "github.com".toList url.toList = false →
          hostScan "gitlab.com".toList url.toList = false →
          hostScan "bitbucket.org".toList url.toList = true →
          (parseGitUrl url).map GitRepository.provider = some "bitbucket")
      ∧ (hostScan "github.com".toList url.toList = false →
          hostScan "gitlab.com".toList url.toList = false →
          hostScan "bitbucket.org".toList url.toList = false →
          ((parseGitUrl url).map GitRepository.provider = some "custom" ↔
            customCondition url = true))
      ∧ (hostScan "github.com".toList url.toList = false →
          hostScan "gitlab.com".toList url.toList = false →
          hostScan "bitbucket.org".toList url.toList = false →
          (parseGitUrl url = none ↔ customCondition url = false)) := by
  intro url
  refine ⟨fun h1 => ?_, fun h1 h2 => ?_, fun h1 h2 h3 => ?_,
    fun h1 h2 h3 => ?_, fun h1 h2 h3 => ?_⟩
  · simp at h1; simp [parseGitUrl, h1]
  · simp at h1 h2; simp [parseGitUrl, h1, h2]
  · simp at h1 h2 h3; simp [parseGitUrl, h1, h2, h3]
  · simp at h1 h2 h3
    cases hc : customCondition url <;> simp [parseGitUrl, h1, h2, h3, hc]
  · simp at h1 h2 h3
    cases hc : customCondition url <;> simp [parseGitUrl, h1, h2, h3, hc]

/-- Witness for C8: the three providers, one accepted custom URL, and one
rejected plain input. -/
theorem C8_parseGitUrl_witness :
    (parseGitUrl "https://github.com/user/repo").map GitRepository.provider =
      some "github"
    ∧ (parseGitUrl "https://gitlab.com/g/p").map GitRepository.provider =
        some "gitlab"
    ∧ (parseGitUrl "https://bitbucket.org/t/r").map GitRepository.provider =
        some "bitbucket"
    ∧ ((parseGitUrl "git://example.com/some/repo").map GitRepository.provider =
          some "custom" ↔
        customCondition "git://example.com/some/repo" = true)
    ∧ (parseGitUrl "plaintext" = none ↔ customCondition "plaintext" = false) :=
  ⟨(C8_parseGitUrl "https://github.com/user/repo").1 (by decide),
   (C8_parseGitUrl "https://gitlab.com/g/p").2.1 (by decide) (by decide),
   (C8_parseGitUrl "https://bitbucket.org/t/r").2.2.1 (by decide) (by decide)
     (by decide),
   (C8_parseGitUrl "git://example.com/some/repo").2.2.2.1 (by decide)
     (by decide) (by decide),
   (C8_parseGitUrl "plaintext").2.2.2.2 (by decide) (by decide) (by decide)⟩

/- ------------------------------------------------------------------ -/
/- C9: failed clone adds no history entry                              -/
/- ------------------------------------------------------------------ -/

/-- C9: when the repository is not already cloned and `cloneRepository` throws,
the clone-and-open action leaves the history store unchanged (no matter whether
the editor is installed). -/
theorem C9_failed_clone_no_history :
    ∀ (cursorInstalled : Bool) (repo : GitRepository) (now : Nat)
      (history : List (Project String)) (e : String),
      handleQuickClone cursorInstalled none (.error e) repo now history = history := by
  intro cursorInstalled repo now history e
  cases cursorInstalled <;> simp [handleQuickClone]

/- ------------------------------------------------------------------ -/
/- C10: token embedding in clone URLs                                  -/
/- ------------------------------------------------------------------ -/

/-- C10: a missing token or a non-`https://` URL is returned unchanged (tokens
are never embedded into ssh-style or `git://` URLs); with a token present, the
`https://` prefix is replaced by the provider-specific credential form —
`token@` for github and for unrecognized providers, `oauth2:token@` for gitlab,
`x-token-auth:token@` for bitbucket. -/
theorem C10_buildAuthenticatedUrl :
    (∀ (url : String) (provider : Option String),
      buildAuthenticatedUrl url none provider = url)
    ∧ (∀ (url t : String) (provider : Option String),
        startsWithStr url "https://" = false →
        buildAuthenticatedUrl url (some t) provider = url)
    ∧ (∀ url t : String, t ≠ "" → startsWithStr url "https://" = true →
        buildAuthenticatedUrl url (some t) (some "github") =
          "https://" ++ t ++ "@" ++ dropStr url 8)
    ∧ (∀ url t : String, t ≠ "" → startsWithStr url "https://" = true →
        buildAuthenticatedUrl url (some t) (some "gitlab") =
          "https://oauth2:" ++ t ++ "@" ++ dropStr url 8)
    ∧ (∀ url t : String, t ≠ "" → startsWithStr url "https://" = true →
        buildAuthenticatedUrl url (some t) (some "bitbucket") =
          "https://x-token-auth:" ++ t ++ "@" ++ dropStr url 8)
    ∧ (∀ (url t : String) (provider : Option String),
        t ≠ "" → startsWithStr url "https://" = true →
        provider ≠ some "github" → provider ≠ some "gitlab" →
        provider ≠ some "bitbucket" →
        buildAuthenticatedUrl url (some t) provider =
          "https://" ++ t ++ "@" ++ dropStr url 8) := by
  refine ⟨fun url provider => rfl, fun url t provider h => ?_,
    fun url t ht h => ?_, fun url t ht h => ?_, fun url t ht h => ?_,
    fun url t provider ht h h1 h2 h3 => ?_⟩
  · by_cases ht : t = "" <;> simp [buildAuthenticatedUrl, ht, h]
  · simp [buildAuthenticatedUrl, ht, h]
  · simp [buildAuthenticatedUrl, ht, h]
  · simp [buildAuthenticatedUrl, ht, h]
  · simp [buildAuthenticatedUrl, ht, h, h1, h2, h3]

/-- Witness for C10: concrete URLs for the unchanged and rewritten cases. -/
theorem C10_buildAuthenticatedUrl_witness :
    buildAuthenticatedUrl "git@host:r.git" (some "tok") (some "custom") = "git@host:r.git"
    ∧ buildAuthenticatedUrl "https://gitlab.com/g/p.git" (some "tok") (some "gitlab") =
        "https://oauth2:" ++ "tok" ++ "@" ++ dropStr "https://gitlab.com/g/p.git" 8
    ∧ buildAuthenticatedUrl "https://example.com/r.git" (some "tok") (some "custom") =
        "https://" ++ "tok" ++ "@" ++ dropStr "https://example.com/r.git" 8 :=
  ⟨C10_buildAuthenticatedUrl.2.1 "git@host:r.git" "tok" (some "custom") (by decide),
   C10_buildAuthenticatedUrl.2.2.2.1 "https://gitlab.com/g/p.git" "tok"
     (by decide) (by decide),
   C10_buildAuthenticatedUrl.2.2.2.2.2 "https://example.com/r.git" "tok"
     (some "custom") (by decide) (by decide) (by decide) (by decide) (by decide)⟩

end OCP
